import Mathlib

/-!
Verification of the PaddleViT checkpoint reconciler
(`image_classification/SwinTransformer/load_pytorch_weights.py`) and of the
truncated-normal initializer of
(`semantic_segmentation/src/models/backbones/trans2seg_transformer.py`).

The Python code is shallowly embedded: a model's named parameters/buffers
(`th_params` / `pd_params`) become association lists from dotted path strings
to tensors; a tensor is its shape together with a row-major flattened payload.
Python's `str.endswith` and `key[:-n]` are embedded at the character-list
level (`strEndsWith`, `strDropRight`) because they must stay kernel-computable.
-/

/-- Embeds Python `s.endswith(suffixStr)`: `suffixStr` is a suffix of the character
sequence of `s`. -/
def strEndsWith (s suffixStr : String) : Bool :=
  suffixStr.data.isSuffixOf s.data

/-- Embeds Python `s[:-n]` (for `0 < n ≤ len(s)`): drop the last `n` characters. -/
def strDropRight (s : String) (n : Nat) : String :=
  String.mk (s.data.take (s.data.length - n))

/-- A numeric tensor of the converter: a shape (ordered dimension sizes) and a
row-major flattened integer payload (the element type plays no role in the
reconciler, which only moves and reindexes values). -/
structure Tensor where
  shape : List Nat
  data : List Int
  deriving DecidableEq, Repr

/-- A model namespace (`th_params` / `pd_params` in `convert`): an association
list from dotted path names to tensors, first binding wins (Python dict keys
are unique, so this is faithful). -/
abbrev Params : Type := List (String × Tensor)

/-- Dict lookup `p[k]`, as an `Option` (Python raises `KeyError` when absent;
every access in `convert` is guarded by an `in` test, so `none` is never
dereferenced). -/
def lookupParam (p : Params) (k : String) : Option Tensor :=
  match p with
  | [] => none
  | kv :: rest => if kv.1 = k then some kv.2 else lookupParam rest k

/-- Embeds `pd_params[pd_name].set_value(value)`: the tensor object held at an
existing key gets its contents replaced; the dict itself (its key set) is
untouched. -/
def updateParam (p : Params) (k : String) (v : Tensor) : Params :=
  p.map (fun kv => if kv.1 = k then (kv.1, v) else kv)

/-- The key list of a namespace, in order. A write via `updateParam` never
changes it: the destination slots (tensor object identities) persist. -/
def keyList (p : Params) : List String :=
  p.map Prod.fst

/-- Embeds numpy `value.transpose((1, 0))` on a 2-D array in row-major layout:
shape `(a, b)` becomes `(b, a)` and element `(i, j)` of the result is element
`(j, i)` of the argument; non-2-D tensors are returned unchanged (the
reconciler only calls it on 2-D values). -/
def npTranspose2 (t : Tensor) : Tensor :=
  match t.shape with
  | [a, b] => ⟨[b, a], (List.range (b * a)).map (fun k => t.data.getD ((k % a) * b + k / a) 0)⟩
  | _ => t

/-- The value produced inside `_set_value` from the source tensor: transposed
when it is exactly 2-dimensional and the `transpose` flag is set
(`if len(value.shape) == 2 and transpose`). -/
def transformValue (t : Tensor) (tr : Bool) : Tensor :=
  if t.shape.length == 2 && tr then npTranspose2 t else t

/-- Embeds `_set_value(th_name, pd_name, transpose)` (lines 76-88): read
`th_params[th_name]`, transpose if 2-D and requested, write the result into the
destination slot `pd_params[pd_name]` in place. The commented-out shape
assertion of line 79 is disabled in the source, so no shape check happens
here. Every call site guards `th_name ∈ th_params`, so the `none` branch is
unreachable. -/
def _set_value (th pd : Params) (th_name pd_name : String) (tr : Bool) : Params :=
  match lookupParam th th_name with
  | some t => updateParam pd pd_name (transformValue t tr)
  | none => pd

/-- One iteration of the copy loop of `convert` (lines 147-161) for a single
mapping entry `(th_name, pd_name)`: direct hit copies with
`transpose = not endswith 'relative_position_bias_table'`; otherwise the
`.weight` and then the `.bias` suffixed pairs are tried, each with the default
`transpose=True`; with no match at all the entry is skipped. -/
def copyEntry (th pd : Params) (e : String × String) : Params :=
  if (lookupParam th e.1).isSome && (lookupParam pd e.2).isSome then
    if strEndsWith e.1 "relative_position_bias_table" then
      _set_value th pd e.1 e.2 false
    else
      _set_value th pd e.1 e.2 true
  else
    let pd1 := if (lookupParam th (e.1 ++ ".weight")).isSome
                  && (lookupParam pd (e.2 ++ ".weight")).isSome then
                 _set_value th pd (e.1 ++ ".weight") (e.2 ++ ".weight") true
               else pd
    let pd2 := if (lookupParam th (e.1 ++ ".bias")).isSome
                  && (lookupParam pd1 (e.2 ++ ".bias")).isSome then
                 _set_value th pd1 (e.1 ++ ".bias") (e.2 ++ ".bias") true
               else pd1
    pd2

/-- The copy phase of `convert` (step 3, lines 146-161): fold the copy loop
over the mapping. The source namespace `th` is only read. -/
def copy_values (th pd : Params) (mapping : List (String × String)) : Params :=
  mapping.foldl (fun acc e => copyEntry th acc e) pd

/-- The copy phase threading both namespaces as explicit state, to express the
frame property: the loop reads the first (torch) component and writes only the
second (paddle) component. -/
def copy_values_state (s : Params × Params) (mapping : List (String × String)) :
    Params × Params :=
  mapping.foldl (fun acc e => (acc.1, copyEntry acc.1 acc.2 e)) s

/-- The predicate of the first missing-key loop of `convert` (lines 113-123):
a source key is recorded when it is not a mapping source path and it ends in
`.weight` (resp. `.bias`) with its stripped form also not a mapping source
path. A key carrying neither suffix leaves `missing = False` and is never
recorded. -/
def srcKeyMissing (th_keys : List String) (key : String) : Bool :=
  decide (key ∉ th_keys) &&
    ((strEndsWith key ".weight" && decide (strDropRight key 7 ∉ th_keys))
      || (strEndsWith key ".bias" && decide (strDropRight key 5 ∉ th_keys)))

/-- The predicate of the second missing-key loop of `convert` (lines 125-134):
a destination key is recorded when it is not a mapping destination path and
cannot be rescued by stripping a `.weight` or `.bias` suffix. -/
def dstKeyMissing (pd_keys : List String) (key : String) : Bool :=
  decide (key ∉ pd_keys) &&
    !(strEndsWith key ".weight" && decide (strDropRight key 7 ∈ pd_keys)) &&
    !(strEndsWith key ".bias" && decide (strDropRight key 5 ∈ pd_keys))

/-- Embeds the missing-key computation of `convert` (lines 107-136) returning
the pair `(missing_keys_th, missing_keys_pd)`. Both loops append to
`missing_keys_th` (line 136 of the source appends the destination-side misses
to `missing_keys_th`, not to `missing_keys_pd`), so the second component stays
empty. `th_keys` / `pd_keys` are the two projections of the mapping
(`zip(*mapping)`). -/
def compute_missing_keys (mapping : List (String × String))
    (thParamKeys pdParamKeys : List String) : List String × List String :=
  let th_keys := mapping.map Prod.fst
  let pd_keys := mapping.map Prod.snd
  let fromSrc := thParamKeys.filter (srcKeyMissing th_keys)
  let fromDst := pdParamKeys.filter (dstKeyMissing pd_keys)
  (fromSrc ++ fromDst, [])

/-- The seven per-block entries of `torch_to_paddle_mapping` (lines 52-60),
for stage `s` and block `b`: source paths under `layers.{s}.blocks.{b}`,
destination paths under `stages.{s}.blocks.{b}`. -/
def blockEntries (s b : Nat) : List (String × String) :=
  let thB := "layers." ++ toString s ++ ".blocks." ++ toString b
  let ppB := "stages." ++ toString s ++ ".blocks." ++ toString b
  [ (thB ++ ".norm1", ppB ++ ".norm1"),
    (thB ++ ".attn.relative_position_bias_table",
      ppB ++ ".attn.relative_position_bias_table"),
    (thB ++ ".attn.qkv", ppB ++ ".attn.qkv"),
    (thB ++ ".attn.proj", ppB ++ ".attn.proj"),
    (thB ++ ".norm2", ppB ++ ".norm2"),
    (thB ++ ".mlp.fc1", ppB ++ ".mlp.fc1"),
    (thB ++ ".mlp.fc2", ppB ++ ".mlp.fc2") ]

/-- The two downsample entries of `torch_to_paddle_mapping` (lines 64-66) for
a non-last stage `s`: exactly like the block entries, the source (torch) path
uses `layers.{s}...` and the destination (paddle) path uses `stages.{s}...`. -/
def downsampleEntries (s : Nat) : List (String × String) :=
  [ ("layers." ++ toString s ++ ".downsample.reduction.weight",
     "stages." ++ toString s ++ ".downsample.reduction.weight"),
    ("layers." ++ toString s ++ ".downsample.norm",
     "stages." ++ toString s ++ ".downsample.norm") ]

/-- The stage loop of `torch_to_paddle_mapping` (lines 46-66): `numStages` is
the fixed `len(depths)`, `s` the running stage index, `depths` the remaining
stage depths. Each stage emits its block entries and, when it is not the last
stage (`s < numStages - 1`), its two downsample entries. -/
def stageEntries (numStages : Nat) : Nat → List Nat → List (String × String)
  | _, [] => []
  | s, d :: rest =>
      (List.range d).flatMap (fun b => blockEntries s b)
        ++ (if s < numStages - 1 then downsampleEntries s else [])
        ++ stageEntries numStages (s + 1) rest

/-- Embeds `torch_to_paddle_mapping` (lines 38-72), parameterized by
`config.MODEL.STAGE_DEPTHS`: two patch-embedding entries, the stage loop, and
the final `norm` / `head` entries. -/
def torch_to_paddle_mapping (depths : List Nat) : List (String × String) :=
  [ ("patch_embed.proj", "patch_embedding.patch_embed"),
    ("patch_embed.norm", "patch_embedding.norm") ]
    ++ stageEntries depths.length 0 depths
    ++ [ ("norm", "norm"), ("head", "fc") ]

/-- A paddle tensor of `trans2seg_transformer.py`: shape plus row-major
rational payload (rationals stand for the float32 scalars; the claims proved
about this code are data-flow facts, not rounding facts). -/
structure PTensor where
  shape : List Nat
  data : List Rat
  deriving DecidableEq, Repr

/-- The store of live paddle tensor objects: a tensor object is identified by
its allocation index. Python-level mutation of a tensor would change the store
at an existing index; allocation appends. -/
abbrev Store : Type := List PTensor

/-- Reads the tensor object at reference `r` (arbitrary default for dangling
references, which the embedded code never produces). -/
def readTensor (h : Store) (r : Nat) : PTensor :=
  h.getD r ⟨[], []⟩

/-- Embeds `norm_cdf` of `_no_grad_trunc_normal_` (lines 29-31):
`(1 + erf(x / sqrt(2))) / 2`. The transcendental `math.erf` and the constant
`math.sqrt(2)` are parameters of the embedding. -/
def norm_cdf (erf : Rat → Rat) (sqrt2 : Rat) (x : Rat) : Rat :=
  (1 + erf (x / sqrt2)) / 2

/-- Embeds `_no_grad_trunc_normal_(tensor, mean, std, a, b)` (lines 27-59) as
a store transformer. `uniform` is the random sampler behind `paddle.uniform`
(shape, min, max to payload). The Python body only reads `tensor.shape`; every
assignment `tensor = ...` rebinds the local name to a freshly built tensor
(`paddle.uniform`, `erf`, `multiply`, `add`, `clip` all return new tensors),
so the store gains the returned tensor and no existing entry is written. The
out-of-range-mean `warnings.warn` is diagnostic output only and is not
modelled. -/
def _no_grad_trunc_normal_ (erf : Rat → Rat) (sqrt2 : Rat)
    (uniform : List Nat → Rat → Rat → List Rat) (h : Store) (tensor : Nat)
    (mean std a b : Rat) : Store × Nat :=
  let l := norm_cdf erf sqrt2 ((a - mean) / std)
  let u := norm_cdf erf sqrt2 ((b - mean) / std)
  let shape := (readTensor h tensor).shape
  let v1 := uniform shape (2 * l - 1) (2 * u - 1)
  let v2 := v1.map erf
  let v3 := v2.map (fun x => x * (std * sqrt2))
  let v4 := v3.map (fun x => x + mean)
  let v5 := v4.map (fun x => min (max x a) b)
  (h ++ [⟨shape, v5⟩], h.length)

/-- Embeds `trunc_normal_(tensor, mean, std, a, b)` (lines 62-80): a direct
delegation to `_no_grad_trunc_normal_`. -/
def trunc_normal_ (erf : Rat → Rat) (sqrt2 : Rat)
    (uniform : List Nat → Rat → Rat → List Rat) (h : Store) (tensor : Nat)
    (mean std a b : Rat) : Store × Nat :=
  _no_grad_trunc_normal_ erf sqrt2 uniform h tensor mean std a b

/-- Embeds the two initializer calls of `TransformerEncoder.__init__`
(lines 296-297): `trunc_normal_(self.cls_token, std=.02)` then
`trunc_normal_(self.pos_embed, std=.02)`, both return values discarded, with
the defaults `mean=0., a=-2., b=2.` and `std = .02 = 1/50`. -/
def encoder_init_trunc (erf : Rat → Rat) (sqrt2 : Rat)
    (uniform : List Nat → Rat → Rat → List Rat) (h : Store)
    (cls_token pos_embed : Nat) : Store :=
  let h1 := (trunc_normal_ erf sqrt2 uniform h cls_token 0 (1/50) (-2) 2).1
  (trunc_normal_ erf sqrt2 uniform h1 pos_embed 0 (1/50) (-2) 2).1

/-- Embeds the initializer call of `TransformerDecoder.__init__` (line 376):
`trunc_normal_(self.cls_embed, std=.02)`, return value discarded. -/
def decoder_init_trunc (erf : Rat → Rat) (sqrt2 : Rat)
    (uniform : List Nat → Rat → Rat → List Rat) (h : Store)
    (cls_embed : Nat) : Store :=
  (trunc_normal_ erf sqrt2 uniform h cls_embed 0 (1/50) (-2) 2).1

lemma lookupParam_isSome_iff_mem (p : Params) (k : String) :
    (lookupParam p k).isSome = true ↔ k ∈ keyList p := by
  induction p with
  | nil => simp [lookupParam, keyList]
  | cons kv rest ih =>
    by_cases h : kv.1 = k <;> simp [lookupParam, keyList, h, ih]
    exact fun hk => absurd hk.symm h

lemma keyList_updateParam (p : Params) (k : String) (v : Tensor) :
    keyList (updateParam p k v) = keyList p := by
  induction p with
  | nil => rfl
  | cons kv rest ih =>
    by_cases h : kv.1 = k <;> simp [updateParam, keyList, h] <;>
      simpa [updateParam, keyList] using ih

lemma lookupParam_updateParam_self (p : Params) (k : String) (v : Tensor)
    (h : (lookupParam p k).isSome = true) :
    lookupParam (updateParam p k v) k = some v := by
  induction p with
  | nil => simp [lookupParam] at h
  | cons kv rest ih =>
    by_cases hk : kv.1 = k
    · simp [updateParam, lookupParam, hk]
    · simp [lookupParam, hk] at h
      simpa [updateParam, lookupParam, hk] using ih h

lemma lookupParam_isSome_updateParam (p : Params) (k x : String) (v : Tensor) :
    (lookupParam (updateParam p k v) x).isSome = (lookupParam p x).isSome := by
  induction p with
  | nil => rfl
  | cons kv rest ih =>
    simp only [updateParam, List.map_cons]
    by_cases hk : kv.1 = k
    · rw [if_pos hk]
      by_cases hx : kv.1 = x
      · simp [lookupParam, hx]
      · simp only [lookupParam, hx, if_false, if_neg hx]
        exact ih
    · rw [if_neg hk]
      by_cases hx : kv.1 = x
      · simp [lookupParam, hx]
      · simp only [lookupParam, hx, if_false, if_neg hx]
        exact ih

lemma lookupParam_isSome_congr (p1 p2 : Params) (x : String)
    (h : keyList p1 = keyList p2) :
    (lookupParam p1 x).isSome = (lookupParam p2 x).isSome := by
  induction p1 generalizing p2 with
  | nil =>
    cases p2 with
    | nil => rfl
    | cons kv rest => simp [keyList] at h
  | cons kv rest ih =>
    cases p2 with
    | nil => simp [keyList] at h
    | cons kv2 rest2 =>
      simp only [keyList, List.map_cons, List.cons.injEq] at h
      by_cases hx : kv.1 = x
      · simp [lookupParam, hx, h.1 ▸ hx]
      · have hx2 : ¬ kv2.1 = x := h.1 ▸ hx
        simp [lookupParam, hx, hx2]
        exact ih rest2 h.2

/-- Proof infrastructure: the list of (destination key, value) writes a call
`_set_value th _ th_name pd_name tr` performs (one write, or none when the
guarded source key is absent). -/
def setValueWrites (th : Params) (th_name pd_name : String) (tr : Bool) :
    List (String × Tensor) :=
  match lookupParam th th_name with
  | some t => [(pd_name, transformValue t tr)]
  | none => []

/-- Proof infrastructure: the writes performed by one copy-loop iteration.
The destination namespace `pd` enters only through key-existence tests. -/
def entryWrites (th pd : Params) (e : String × String) : List (String × Tensor) :=
  if (lookupParam th e.1).isSome && (lookupParam pd e.2).isSome then
    if strEndsWith e.1 "relative_position_bias_table" then
      setValueWrites th e.1 e.2 false
    else
      setValueWrites th e.1 e.2 true
  else
    (if (lookupParam th (e.1 ++ ".weight")).isSome
        && (lookupParam pd (e.2 ++ ".weight")).isSome then
       setValueWrites th (e.1 ++ ".weight") (e.2 ++ ".weight") true
     else []) ++
    (if (lookupParam th (e.1 ++ ".bias")).isSome
        && (lookupParam pd (e.2 ++ ".bias")).isSome then
       setValueWrites th (e.1 ++ ".bias") (e.2 ++ ".bias") true
     else [])

/-- Proof infrastructure: replay a list of absolute writes onto a namespace. -/
def applyWrites (p : Params) (ws : List (String × Tensor)) : Params :=
  ws.foldl (fun q w => updateParam q w.1 w.2) p

/-- Proof infrastructure: the value of key `k` after replaying the writes `ws`
over an initial value `v` (last write wins). -/
def lastVal (ws : List (String × Tensor)) (k : String) (v : Tensor) : Tensor :=
  ws.foldl (fun acc w => if w.1 = k then w.2 else acc) v

/-- Proof infrastructure: all writes of the whole copy loop, in order. -/
def allWrites (th : Params) : Params → List (String × String) → List (String × Tensor)
  | _, [] => []
  | pd, e :: rest => entryWrites th pd e ++ allWrites th (copyEntry th pd e) rest

lemma applyWrites_append (p : Params) (ws1 ws2 : List (String × Tensor)) :
    applyWrites p (ws1 ++ ws2) = applyWrites (applyWrites p ws1) ws2 :=
  List.foldl_append _ _ _ _

lemma set_value_eq_applyWrites (th pd : Params) (a b : String) (tr : Bool) :
    _set_value th pd a b tr = applyWrites pd (setValueWrites th a b tr) := by
  unfold _set_value setValueWrites
  cases lookupParam th a <;> rfl

lemma keyList_applyWrites (ws : List (String × Tensor)) (p : Params) :
    keyList (applyWrites p ws) = keyList p := by
  induction ws generalizing p with
  | nil => rfl
  | cons w ws ih =>
    show keyList (applyWrites (updateParam p w.1 w.2) ws) = keyList p
    rw [ih, keyList_updateParam]

lemma copyEntry_eq_applyWrites (th pd : Params) (e : String × String) :
    copyEntry th pd e = applyWrites pd (entryWrites th pd e) := by
  unfold copyEntry entryWrites
  by_cases hd : ((lookupParam th e.1).isSome && (lookupParam pd e.2).isSome) = true
  · rw [if_pos hd, if_pos hd]
    by_cases hrel : strEndsWith e.1 "relative_position_bias_table" = true
    · rw [if_pos hrel, if_pos hrel, set_value_eq_applyWrites]
    · rw [if_neg hrel, if_neg hrel, set_value_eq_applyWrites]
  · rw [if_neg hd, if_neg hd, applyWrites_append]
    by_cases hw : ((lookupParam th (e.1 ++ ".weight")).isSome
        && (lookupParam pd (e.2 ++ ".weight")).isSome) = true
    · rw [if_pos hw, if_pos hw, ← set_value_eq_applyWrites]
      have hbias : (lookupParam (_set_value th pd (e.1 ++ ".weight") (e.2 ++ ".weight") true)
          (e.2 ++ ".bias")).isSome = (lookupParam pd (e.2 ++ ".bias")).isSome := by
        unfold _set_value
        cases lookupParam th (e.1 ++ ".weight") with
        | none => rfl
        | some t => exact lookupParam_isSome_updateParam pd _ _ _
      show (if ((lookupParam th (e.1 ++ ".bias")).isSome
          && (lookupParam (_set_value th pd (e.1 ++ ".weight") (e.2 ++ ".weight") true)
            (e.2 ++ ".bias")).isSome) = true then
          _set_value th (_set_value th pd (e.1 ++ ".weight") (e.2 ++ ".weight") true)
            (e.1 ++ ".bias") (e.2 ++ ".bias") true
        else _set_value th pd (e.1 ++ ".weight") (e.2 ++ ".weight") true) = _
      rw [hbias]
      by_cases hb : ((lookupParam th (e.1 ++ ".bias")).isSome
          && (lookupParam pd (e.2 ++ ".bias")).isSome) = true
      · rw [if_pos hb, if_pos hb, set_value_eq_applyWrites]
      · rw [if_neg hb, if_neg hb]
        rfl
    · rw [if_neg hw, if_neg hw]
      show (if ((lookupParam th (e.1 ++ ".bias")).isSome
          && (lookupParam pd (e.2 ++ ".bias")).isSome) = true then
          _set_value th pd (e.1 ++ ".bias") (e.2 ++ ".bias") true
        else pd) = _
      by_cases hb : ((lookupParam th (e.1 ++ ".bias")).isSome
          && (lookupParam pd (e.2 ++ ".bias")).isSome) = true
      · rw [if_pos hb, if_pos hb, set_value_eq_applyWrites]
        rfl
      · rw [if_neg hb, if_neg hb]
        rfl

lemma keyList_copyEntry (th pd : Params) (e : String × String) :
    keyList (copyEntry th pd e) = keyList pd := by
  rw [copyEntry_eq_applyWrites, keyList_applyWrites]

lemma entryWrites_congr (th pd1 pd2 : Params) (e : String × String)
    (h : keyList pd1 = keyList pd2) :
    entryWrites th pd1 e = entryWrites th pd2 e := by
  have hl : ∀ x, (lookupParam pd1 x).isSome = (lookupParam pd2 x).isSome :=
    fun x => lookupParam_isSome_congr pd1 pd2 x h
  unfold entryWrites
  rw [hl, hl, hl]

lemma allWrites_congr (th : Params) (m : List (String × String)) :
    ∀ pd1 pd2 : Params, keyList pd1 = keyList pd2 →
      allWrites th pd1 m = allWrites th pd2 m := by
  induction m with
  | nil => intro pd1 pd2 _; rfl
  | cons e rest ih =>
    intro pd1 pd2 h
    show entryWrites th pd1 e ++ allWrites th (copyEntry th pd1 e) rest
        = entryWrites th pd2 e ++ allWrites th (copyEntry th pd2 e) rest
    rw [entryWrites_congr th pd1 pd2 e h]
    rw [ih (copyEntry th pd1 e) (copyEntry th pd2 e)
      (by rw [keyList_copyEntry, keyList_copyEntry, h])]

lemma copy_values_eq_applyWrites (th : Params) (m : List (String × String)) :
    ∀ pd : Params, copy_values th pd m = applyWrites pd (allWrites th pd m) := by
  induction m with
  | nil => intro pd; rfl
  | cons e rest ih =>
    intro pd
    show copy_values th (copyEntry th pd e) rest
        = applyWrites pd (entryWrites th pd e ++ allWrites th (copyEntry th pd e) rest)
    rw [applyWrites_append, ← copyEntry_eq_applyWrites, ih]

lemma keyList_copy_values (th pd : Params) (m : List (String × String)) :
    keyList (copy_values th pd m) = keyList pd := by
  rw [copy_values_eq_applyWrites, keyList_applyWrites]

lemma lastVal_cons (w : String × Tensor) (ws : List (String × Tensor)) (k : String)
    (v : Tensor) : lastVal (w :: ws) k v = lastVal ws k (if w.1 = k then w.2 else v) :=
  rfl

lemma applyWrites_eq_map (ws : List (String × Tensor)) :
    ∀ p : Params, applyWrites p ws = p.map (fun kv => (kv.1, lastVal ws kv.1 kv.2)) := by
  induction ws with
  | nil => intro p; simp [applyWrites, lastVal]
  | cons w ws ih =>
    intro p
    show applyWrites (updateParam p w.1 w.2) ws = _
    rw [ih, updateParam, List.map_map]
    refine List.map_congr_left ?_
    intro kv _
    by_cases h : kv.1 = w.1
    · simp [Function.comp, h, lastVal_cons]
    · have h2 : ¬ w.1 = kv.1 := fun hc => h hc.symm
      simp [Function.comp, h, h2, lastVal_cons]

lemma lastVal_idem (ws : List (String × Tensor)) (k : String) :
    ∀ v : Tensor, lastVal ws k (lastVal ws k v) = lastVal ws k v := by
  induction ws with
  | nil => intro v; rfl
  | cons w ws ih =>
    intro v
    by_cases h : w.1 = k
    · simp only [lastVal_cons, if_pos h]
    · simp only [lastVal_cons, if_neg h]
      exact ih v

lemma applyWrites_idem (p : Params) (ws : List (String × Tensor)) :
    applyWrites (applyWrites p ws) ws = applyWrites p ws := by
  rw [applyWrites_eq_map, applyWrites_eq_map, List.map_map]
  refine List.map_congr_left ?_
  intro kv _
  simp [Function.comp, lastVal_idem]

lemma npTranspose2_spec (t : Tensor) (a b : Nat) (h : t.shape = [a, b]) :
    (npTranspose2 t).shape = [b, a] ∧
    ∀ i j : Nat, i < b → j < a →
      (npTranspose2 t).data.getD (i * a + j) 0 = t.data.getD (j * b + i) 0 := by
  obtain ⟨sh, dt⟩ := t
  simp only [Tensor.mk.injEq] at h
  subst h
  refine ⟨rfl, ?_⟩
  intro i j hi hj
  have ha : 0 < a := Nat.pos_of_ne_zero (by omega)
  have hk : i * a + j < b * a := by
    have h1 : i * a + j < (i + 1) * a := by rw [Nat.succ_mul]; omega
    have h2 : (i + 1) * a ≤ b * a := Nat.mul_le_mul_right a hi
    omega
  show ((List.range (b * a)).map
      (fun k => dt.getD ((k % a) * b + k / a) 0)).getD (i * a + j) 0 = dt.getD (j * b + i) 0
  rw [List.getD_eq_getElem?_getD, List.getElem?_map, List.getElem?_range hk]
  have hmod : (i * a + j) % a = j := by
    rw [Nat.add_comm, Nat.add_mul_mod_self_right, Nat.mod_eq_of_lt hj]
  have hdiv : (i * a + j) / a = i := by
    rw [Nat.add_comm, Nat.add_mul_div_right _ _ ha, Nat.div_eq_of_lt hj, Nat.zero_add]
  simp [hmod, hdiv]

lemma length_blockRun (s d : Nat) :
    ((List.range d).flatMap (fun b => blockEntries s b)).length = 7 * d := by
  induction d with
  | zero => rfl
  | succ n ih =>
    rw [List.range_succ, List.flatMap_append, List.length_append, ih]
    simp [blockEntries]
    omega

lemma length_stageEntries :
    ∀ (depths : List Nat) (s n : Nat), s + depths.length = n →
      (stageEntries n s depths).length = 7 * depths.sum + 2 * (depths.length - 1) := by
  intro depths
  induction depths with
  | nil => intro s n _; simp [stageEntries]
  | cons d rest ih =>
    intro s n h
    cases rest with
    | nil =>
      have hs : ¬ s < n - 1 := by simp at h; omega
      rw [stageEntries, List.length_append, List.length_append, length_blockRun,
        if_neg hs]
      simp [stageEntries]
    | cons r rs =>
      have hs : s < n - 1 := by simp at h; omega
      have ihh := ih (s + 1) n (by simp at h ⊢; omega)
      rw [stageEntries, List.length_append, List.length_append, length_blockRun,
        if_pos hs, ihh]
      simp [downsampleEntries]
      omega

lemma downsample_mem_stageEntries :
    ∀ (depths : List Nat) (i s n : Nat), s < depths.length → i + s < n - 1 →
      ∀ p ∈ downsampleEntries (i + s), p ∈ stageEntries n i depths := by
  intro depths
  induction depths with
  | nil => intro i s n hs; simp at hs
  | cons d rest ih =>
    intro i s n hs hlt p hp
    cases s with
    | zero =>
      have hi : i < n - 1 := by simpa using hlt
      show p ∈ ((List.range d).flatMap (fun b => blockEntries i b)
          ++ (if i < n - 1 then downsampleEntries i else []))
          ++ stageEntries n (i + 1) rest
      refine List.mem_append_left _ (List.mem_append_right _ ?_)
      rw [if_pos hi]
      simpa using hp
    | succ s2 =>
      have h1 : s2 < rest.length := by simpa using Nat.lt_of_succ_lt_succ hs
      have h2 : (i + 1) + s2 < n - 1 := by omega
      have hp2 : p ∈ downsampleEntries ((i + 1) + s2) := by
        rw [show (i + 1) + s2 = i + (s2 + 1) by omega]
        exact hp
      exact List.mem_append_right _ (ih (i + 1) s2 n h1 h2 p hp2)

lemma readTensor_append (h : Store) (t : PTensor) (r : Nat) (hr : r < h.length) :
    readTensor (h ++ [t]) r = readTensor h r := by
  unfold readTensor
  exact List.getD_append _ _ _ _ hr

lemma trunc_normal_store (erf : Rat → Rat) (sqrt2 : Rat)
    (uniform : List Nat → Rat → Rat → List Rat) (h : Store) (tensor : Nat)
    (mean std a b : Rat) :
    ∃ t : PTensor,
      (trunc_normal_ erf sqrt2 uniform h tensor mean std a b).1 = h ++ [t] :=
  ⟨_, rfl⟩

/-- C1: for a mapping entry hit directly (both keys present), a 2-D source
tensor of shape `(a, b)` whose source key does not end with
`relative_position_bias_table` is written to the destination slot transposed:
the written value has shape `(b, a)` and element `(i, j)` of the written value
equals element `(j, i)` of the source; an entry whose source key ends with
`relative_position_bias_table` is written unchanged, even when 2-D. -/
theorem C1_transpose_rule (th pd : Params) (e : String × String) (t : Tensor)
    (a b : Nat) (hth : lookupParam th e.1 = some t)
    (hpd : (lookupParam pd e.2).isSome = true) :
    (strEndsWith e.1 "relative_position_bias_table" = false → t.shape = [a, b] →
      ∃ v : Tensor, lookupParam (copyEntry th pd e) e.2 = some v ∧ v.shape = [b, a] ∧
        ∀ i j : Nat, i < b → j < a →
          v.data.getD (i * a + j) 0 = t.data.getD (j * b + i) 0)
    ∧ (strEndsWith e.1 "relative_position_bias_table" = true →
        lookupParam (copyEntry th pd e) e.2 = some t) := by
  have hsome : (lookupParam th e.1).isSome = true := by rw [hth]; rfl
  have hcond : ((lookupParam th e.1).isSome && (lookupParam pd e.2).isSome) = true := by
    rw [hsome, hpd]; rfl
  constructor
  · intro hrel hshape
    have heq : copyEntry th pd e = updateParam pd e.2 (transformValue t true) := by
      unfold copyEntry
      rw [if_pos hcond, if_neg (by rw [hrel]; simp)]
      unfold _set_value
      rw [hth]
    have htr : transformValue t true = npTranspose2 t := by
      unfold transformValue
      rw [hshape]
      rfl
    rw [heq, htr]
    exact ⟨npTranspose2 t, lookupParam_updateParam_self pd e.2 _ hpd,
      (npTranspose2_spec t a b hshape).1, (npTranspose2_spec t a b hshape).2⟩
  · intro hrel
    have heq : copyEntry th pd e = updateParam pd e.2 (transformValue t false) := by
      unfold copyEntry
      rw [if_pos hcond, if_pos hrel]
      unfold _set_value
      rw [hth]
    have htr : transformValue t false = t := by
      unfold transformValue
      simp
    rw [heq, htr]
    exact lookupParam_updateParam_self pd e.2 t hpd

/-- Witness for C1 at concrete inputs: a `(2, 3)` tensor under a `qkv`-style
key is written as its `(3, 2)` transpose, and a 2-D tensor under a
`relative_position_bias_table` key is written unchanged. -/
theorem C1_transpose_rule_witness :
    (∃ v : Tensor,
      lookupParam (copyEntry [("m.attn.qkv", ⟨[2, 3], [1, 2, 3, 4, 5, 6]⟩)]
          [("p.attn.qkv", ⟨[3, 2], [0, 0, 0, 0, 0, 0]⟩)] ("m.attn.qkv", "p.attn.qkv"))
        "p.attn.qkv" = some v ∧ v.shape = [3, 2] ∧
        ∀ i j : Nat, i < 3 → j < 2 →
          v.data.getD (i * 2 + j) 0
            = (⟨[2, 3], [1, 2, 3, 4, 5, 6]⟩ : Tensor).data.getD (j * 3 + i) 0)
    ∧ lookupParam
        (copyEntry [("m.relative_position_bias_table", ⟨[2, 2], [1, 2, 3, 4]⟩)]
          [("p.relative_position_bias_table", ⟨[2, 2], [0, 0, 0, 0]⟩)]
          ("m.relative_position_bias_table", "p.relative_position_bias_table"))
        "p.relative_position_bias_table" = some ⟨[2, 2], [1, 2, 3, 4]⟩ :=
  ⟨(C1_transpose_rule _ _ _ _ 2 3 (by decide) (by decide)).1 (by decide) rfl,
    (C1_transpose_rule _ _ _ ⟨[2, 2], [1, 2, 3, 4]⟩ 2 2 (by decide) (by decide)).2
      (by decide)⟩

/-- C2: for stage depths `[d0, ..., dn-1]` of positive integers, the mapping
built by `torch_to_paddle_mapping` has exactly
`2 + 7*(d0+...+dn-1) + 2*(n-1) + 2` entries. -/
theorem C2_build_mapping_length (depths : List Nat) (hpos : ∀ d ∈ depths, 0 < d) :
    (torch_to_paddle_mapping depths).length
      = 2 + 7 * depths.sum + 2 * (depths.length - 1) + 2 := by
  unfold torch_to_paddle_mapping
  rw [List.length_append, List.length_append,
    length_stageEntries depths 0 depths.length (by omega)]
  simp
  omega

/-- Witness for C2 at the concrete Swin configuration `[2, 2, 6, 2]`:
the mapping has exactly `94` entries. -/
theorem C2_build_mapping_length_witness :
    (∀ d ∈ ([2, 2, 6, 2] : List Nat), 0 < d)
    ∧ (torch_to_paddle_mapping [2, 2, 6, 2]).length = 94 := by
  refine ⟨by decide, ?_⟩
  rw [C2_build_mapping_length [2, 2, 6, 2] (by decide)]
  decide

/-- C3 counterexample: in the mapping for depths `[1, 1]` the downsample
entries of stage 0 appear with source path `layers.0.downsample...` and
destination path `stages.0.downsample...` — exactly the same source and
destination roles as the block entries (for example
`("layers.0.blocks.0.norm1", "stages.0.blocks.0.norm1")`). The swapped
(inverted) orientation `("stages.0.downsample...", "layers.0.downsample...")`
asserted by the claim does not occur, so the prefix roles are not inverted. -/
theorem C3_counterexample :
    (("layers.0.downsample.reduction.weight", "stages.0.downsample.reduction.weight")
        ∈ torch_to_paddle_mapping [1, 1])
    ∧ (("layers.0.downsample.norm", "stages.0.downsample.norm")
        ∈ torch_to_paddle_mapping [1, 1])
    ∧ (("layers.0.blocks.0.norm1", "stages.0.blocks.0.norm1")
        ∈ torch_to_paddle_mapping [1, 1])
    ∧ (("stages.0.downsample.reduction.weight", "layers.0.downsample.reduction.weight")
        ∉ torch_to_paddle_mapping [1, 1])
    ∧ (("stages.0.downsample.norm", "layers.0.downsample.norm")
        ∉ torch_to_paddle_mapping [1, 1]) := by
  decide

/-- C3 as amended: for every non-last stage `s` the two downsample entries are
emitted with source (torch) path prefix `layers.{s}.downsample` and
destination (paddle) path prefix `stages.{s}.downsample` — the same
source/destination role assignment as the per-block entries, not an inverted
one. -/
theorem C3_downsample_entries (depths : List Nat) (s : Nat)
    (h : s < depths.length - 1) :
    ("layers." ++ toString s ++ ".downsample.reduction.weight",
      "stages." ++ toString s ++ ".downsample.reduction.weight")
        ∈ torch_to_paddle_mapping depths
    ∧ ("layers." ++ toString s ++ ".downsample.norm",
        "stages." ++ toString s ++ ".downsample.norm")
        ∈ torch_to_paddle_mapping depths := by
  have hs : s < depths.length := by omega
  have hmem := downsample_mem_stageEntries depths 0 s depths.length hs (by omega)
  constructor
  · refine List.mem_append_left _ (List.mem_append_right _ ?_)
    exact hmem _ (by simp [downsampleEntries])
  · refine List.mem_append_left _ (List.mem_append_right _ ?_)
    exact hmem _ (by simp [downsampleEntries])

/-- Witness for C3 as amended, at depths `[1, 1]` and stage `0`. -/
theorem C3_downsample_entries_witness :
    (0 < ([1, 1] : List Nat).length - 1)
    ∧ ("layers." ++ toString 0 ++ ".downsample.reduction.weight",
        "stages." ++ toString 0 ++ ".downsample.reduction.weight")
          ∈ torch_to_paddle_mapping [1, 1]
    ∧ ("layers." ++ toString 0 ++ ".downsample.norm",
        "stages." ++ toString 0 ++ ".downsample.norm")
          ∈ torch_to_paddle_mapping [1, 1] :=
  ⟨by decide, (C3_downsample_entries [1, 1] 0 (by decide)).1,
    (C3_downsample_entries [1, 1] 0 (by decide)).2⟩

/-- C4 counterexample: the source key `foo` is not a mapping source path, and
carries neither a `.weight` nor a `.bias` suffix (so suffix stripping cannot
match it either), yet the first missing-key set of `compute_missing_keys` does
not contain it: the first loop of `convert` only ever records keys ending in
`.weight` or `.bias`. -/
theorem C4_counterexample :
    "foo" ∈ (["foo"] : List String)
    ∧ "foo" ∉ ([("a", "b")] : List (String × String)).map Prod.fst
    ∧ strEndsWith "foo" ".weight" = false
    ∧ strEndsWith "foo" ".bias" = false
    ∧ "foo" ∉ (compute_missing_keys [("a", "b")] ["foo"] []).1 := by
  decide

/-- C4 as amended: the first (source-side) missing set receives every source
key that ends in `.weight` or `.bias` and is matched by the mapping source
paths neither directly nor after stripping that suffix; source keys without
either suffix are never recorded, even when unmatched. -/
theorem C4_missing_src (mapping : List (String × String))
    (thParamKeys pdParamKeys : List String) (key : String)
    (hmem : key ∈ thParamKeys)
    (h : (strEndsWith key ".weight" = true ∧ key ∉ mapping.map Prod.fst
            ∧ strDropRight key 7 ∉ mapping.map Prod.fst)
       ∨ (strEndsWith key ".bias" = true ∧ key ∉ mapping.map Prod.fst
            ∧ strDropRight key 5 ∉ mapping.map Prod.fst)) :
    key ∈ (compute_missing_keys mapping thParamKeys pdParamKeys).1 := by
  show key ∈ thParamKeys.filter (srcKeyMissing (mapping.map Prod.fst))
      ++ pdParamKeys.filter (dstKeyMissing (mapping.map Prod.snd))
  refine List.mem_append_left _ ?_
  rw [List.mem_filter]
  refine ⟨hmem, ?_⟩
  unfold srcKeyMissing
  rcases h with ⟨he, h1, h2⟩ | ⟨he, h1, h2⟩ <;> simp [he, h1, h2]

/-- Witness for C4 as amended: the unmatched source key `foo.weight` lands in
the first missing-key set. -/
theorem C4_missing_src_witness :
    "foo.weight" ∈ (compute_missing_keys [("a", "b")] ["foo.weight"] []).1 :=
  C4_missing_src [("a", "b")] ["foo.weight"] [] "foo.weight" (by decide)
    (Or.inl ⟨by decide, by decide, by decide⟩)

/-- C5 (code bug, evaluated at the failing input): for a destination namespace
holding `foo.weight` with no mapping entry for `foo`, the missing destination
key is appended to the FIRST returned list (`missing_keys_th`, reported as the
source-side misses) by line 136 of the source, while the second list
(`missing_keys_pd`, printed as `missing_keys_paddle`) stays empty — the claim
(and the printed labels of the code itself) place it in the second,
destination-side set. -/
theorem C5_missing_dst_code_behavior :
    (compute_missing_keys [("a", "b")] [] ["foo.weight"]).1 = ["foo.weight"]
    ∧ (compute_missing_keys [("a", "b")] [] ["foo.weight"]).2 = [] := by
  constructor <;> rfl

/-- C6: the copy phase is idempotent — running `copy_values` a second time
with the same mapping and the same source namespace leaves the destination
namespace obtained from the first run unchanged. -/
theorem C6_copy_values_idempotent (th pd : Params)
    (mapping : List (String × String)) :
    copy_values th (copy_values th pd mapping) mapping
      = copy_values th pd mapping := by
  have hk : keyList (copy_values th pd mapping) = keyList pd :=
    keyList_copy_values th pd mapping
  rw [copy_values_eq_applyWrites th mapping (copy_values th pd mapping),
    allWrites_congr th mapping _ _ hk,
    copy_values_eq_applyWrites th mapping pd]
  exact applyWrites_idem pd (allWrites th pd mapping)

/-- C7: the copy loop, viewed as a transformer of the pair
(source namespace, destination namespace), leaves the source component
untouched and only rewrites tensor contents of the destination: the
destination's key list (its named slots, i.e. the tensor objects written in
place by `set_value`) is preserved, and the destination component is exactly
`copy_values`. -/
theorem C7_copy_values_frame (th pd : Params) (mapping : List (String × String)) :
    (copy_values_state (th, pd) mapping).1 = th
    ∧ keyList (copy_values_state (th, pd) mapping).2 = keyList pd
    ∧ (copy_values_state (th, pd) mapping).2 = copy_values th pd mapping := by
  have main : ∀ (m : List (String × String)) (q : Params),
      copy_values_state (th, q) m = (th, copy_values th q m) := by
    intro m
    induction m with
    | nil => intro q; rfl
    | cons e rest ih =>
      intro q
      show copy_values_state (th, copyEntry th q e) rest = _
      rw [ih]
      rfl
  rw [main mapping pd]
  exact ⟨rfl, keyList_copy_values th pd mapping, rfl⟩

/-- C8: a mapping entry matched neither directly nor through the `.weight` /
`.bias` suffixed keys is skipped: the destination namespace is returned
unchanged for that entry, no failure occurs (the embedded loop is total), and
the remaining entries are processed as if the entry were absent. -/
theorem C8_skip_unmatched (th pd : Params) (e : String × String)
    (rest : List (String × String))
    (h1 : ¬((lookupParam th e.1).isSome && (lookupParam pd e.2).isSome) = true)
    (h2 : ¬((lookupParam th (e.1 ++ ".weight")).isSome
        && (lookupParam pd (e.2 ++ ".weight")).isSome) = true)
    (h3 : ¬((lookupParam th (e.1 ++ ".bias")).isSome
        && (lookupParam pd (e.2 ++ ".bias")).isSome) = true) :
    copyEntry th pd e = pd
    ∧ copy_values th pd (e :: rest) = copy_values th pd rest := by
  have hskip : copyEntry th pd e = pd := by
    unfold copyEntry
    rw [if_neg h1]
    simp only [if_neg h2, if_neg h3]
  refine ⟨hskip, ?_⟩
  show copy_values th (copyEntry th pd e) rest = copy_values th pd rest
  rw [hskip]

/-- Witness for C8: the entry `("x", "y")` matches nothing in the concrete
namespaces, is skipped, and the following entry is still processed. -/
theorem C8_skip_unmatched_witness :
    copyEntry [("a", ⟨[1], [3]⟩)] [("b", ⟨[1], [0]⟩)] ("x", "y")
        = [("b", ⟨[1], [0]⟩)]
    ∧ copy_values [("a", ⟨[1], [3]⟩)] [("b", ⟨[1], [0]⟩)] [("x", "y"), ("a", "b")]
        = copy_values [("a", ⟨[1], [3]⟩)] [("b", ⟨[1], [0]⟩)] [("a", "b")] :=
  C8_skip_unmatched [("a", ⟨[1], [3]⟩)] [("b", ⟨[1], [0]⟩)] ("x", "y")
    [("a", "b")] (by decide) (by decide) (by decide)

/-- C9: for an entry whose keys exist on both sides, the write is performed
unconditionally — in particular even when the source and destination shapes
disagree — with no shape validation inside the copy routine (the assertion of
line 79 is commented out); the destination slot simply receives the
(possibly transposed) source value. -/
theorem C9_no_shape_check (th pd : Params) (e : String × String) (t u : Tensor)
    (hth : lookupParam th e.1 = some t) (hpd : lookupParam pd e.2 = some u)
    (hshape : t.shape ≠ u.shape) :
    copyEntry th pd e
      = updateParam pd e.2
          (transformValue t (!(strEndsWith e.1 "relative_position_bias_table"))) := by
  have hcond : ((lookupParam th e.1).isSome && (lookupParam pd e.2).isSome) = true := by
    rw [hth, hpd]; rfl
  unfold copyEntry
  rw [if_pos hcond]
  cases hrel : strEndsWith e.1 "relative_position_bias_table" with
  | false =>
    rw [if_neg (by simp)]
    unfold _set_value
    rw [hth]
    rfl
  | true =>
    rw [if_pos rfl]
    unfold _set_value
    rw [hth]
    rfl

/-- Witness for C9: a `(1, 2)` source value is written into a destination
slot holding a `(7,)` tensor — the shapes disagree, and the write (with
transpose) happens anyway. -/
theorem C9_no_shape_check_witness :
    copyEntry [("w", ⟨[1, 2], [8, 9]⟩)] [("v", ⟨[7], [0, 0, 0, 0, 0, 0, 0]⟩)]
        ("w", "v")
      = updateParam [("v", ⟨[7], [0, 0, 0, 0, 0, 0, 0]⟩)] "v"
          (transformValue ⟨[1, 2], [8, 9]⟩
            (!(strEndsWith "w" "relative_position_bias_table"))) :=
  C9_no_shape_check [("w", ⟨[1, 2], [8, 9]⟩)] [("v", ⟨[7], [0, 0, 0, 0, 0, 0, 0]⟩)]
    ("w", "v") ⟨[1, 2], [8, 9]⟩ ⟨[7], [0, 0, 0, 0, 0, 0, 0]⟩ (by decide) (by decide)
    (by decide)

/-- C10: `trunc_normal_` (via `_no_grad_trunc_normal_`) never mutates an
existing tensor object — it only allocates and returns a fresh tensor built
from the argument's shape and the sampled values. Hence every tensor already
in the store, in particular the argument itself, reads back unchanged after a
call; this covers the discarded-return call sites
`trunc_normal_(self.cls_token, std=.02)` / `trunc_normal_(self.pos_embed,
std=.02)` of `TransformerEncoder.__init__` and
`trunc_normal_(self.cls_embed, std=.02)` of `TransformerDecoder.__init__`. -/
theorem C10_trunc_normal_no_mutation (erf : Rat → Rat) (sqrt2 : Rat)
    (uniform : List Nat → Rat → Rat → List Rat) (h : Store)
    (tensor ct pe ce : Nat) (mean std a b : Rat) (r : Nat) (hr : r < h.length) :
    readTensor ((trunc_normal_ erf sqrt2 uniform h tensor mean std a b).1) r
        = readTensor h r
    ∧ readTensor (encoder_init_trunc erf sqrt2 uniform h ct pe) r = readTensor h r
    ∧ readTensor (decoder_init_trunc erf sqrt2 uniform h ce) r = readTensor h r := by
  have key : ∀ (h2 : Store) (t2 : Nat) (m2 s2 a2 b2 : Rat), r < h2.length →
      readTensor ((trunc_normal_ erf sqrt2 uniform h2 t2 m2 s2 a2 b2).1) r
          = readTensor h2 r
        ∧ r < ((trunc_normal_ erf sqrt2 uniform h2 t2 m2 s2 a2 b2).1).length := by
    intro h2 t2 m2 s2 a2 b2 hr2
    obtain ⟨t, ht⟩ := trunc_normal_store erf sqrt2 uniform h2 t2 m2 s2 a2 b2
    rw [ht]
    refine ⟨readTensor_append h2 t r hr2, ?_⟩
    rw [List.length_append]
    omega
  have k1 := key h ct 0 (1/50) (-2) 2 hr
  have k2 := key (trunc_normal_ erf sqrt2 uniform h ct 0 (1/50) (-2) 2).1 pe
    0 (1/50) (-2) 2 k1.2
  exact ⟨(key h tensor mean std a b hr).1, k2.1.trans k1.1,
    (key h ce 0 (1/50) (-2) 2 hr).1⟩

/-- Witness for C10 at a concrete store: a one-tensor store, reference `0`,
the identity as `erf`, `1` as `sqrt(2)` stand-in, and a constant sampler; the
stored tensor reads back unchanged after each initializer. -/
theorem C10_trunc_normal_no_mutation_witness :
    readTensor ((trunc_normal_ id 1 (fun sh lo _ => List.replicate sh.prod lo)
        [⟨[1, 1, 2], [5, 7]⟩] 0 0 1 (-2) 2).1) 0
      = readTensor [⟨[1, 1, 2], [5, 7]⟩] 0
    ∧ readTensor (encoder_init_trunc id 1 (fun sh lo _ => List.replicate sh.prod lo)
        [⟨[1, 1, 2], [5, 7]⟩] 0 0) 0 = readTensor [⟨[1, 1, 2], [5, 7]⟩] 0
    ∧ readTensor (decoder_init_trunc id 1 (fun sh lo _ => List.replicate sh.prod lo)
        [⟨[1, 1, 2], [5, 7]⟩] 0) 0 = readTensor [⟨[1, 1, 2], [5, 7]⟩] 0 :=
  C10_trunc_normal_no_mutation id 1 (fun sh lo _ => List.replicate sh.prod lo)
    [⟨[1, 1, 2], [5, 7]⟩] 0 0 0 0 0 1 (-2) 2 0 (by decide)
